import Mathlib

/-!
Verification of the oauthsign OAuth 1.0a signing library.

The Rust sources are shallowly embedded: strings are Lean `String`s
(Rust `String` comparison is byte-wise on UTF-8, which coincides with the
code-point order used here), byte buffers are `List Nat` with every
element a byte value, `i64` timestamps are `Int`, fallible I/O is
`Except IoError`, and the ambient effects of `sign` (current time,
freshly generated UUID nonce, file system) are passed as explicit
arguments.
-/

namespace OAuthSign

/-! ### UTF-8 byte view of strings -/

/-- UTF-8 encoding of a single character (1 to 4 bytes). -/
def utf8Bytes (c : Char) : List Nat :=
  let n := c.toNat
  if n < 128 then [n]
  else if n < 2048 then
    [192 ||| (n >>> 6), 128 ||| (n &&& 63)]
  else if n < 65536 then
    [224 ||| (n >>> 12), 128 ||| ((n >>> 6) &&& 63), 128 ||| (n &&& 63)]
  else
    [240 ||| (n >>> 18), 128 ||| ((n >>> 12) &&& 63),
     128 ||| ((n >>> 6) &&& 63), 128 ||| (n &&& 63)]

/-- The UTF-8 bytes of a string, as Rust's `str::bytes` exposes them. -/
def strBytes (s : String) : List Nat := s.data.flatMap utf8Bytes

/-- ASCII alphanumeric test on a byte value. -/
def isAsciiAlphanumByte (b : Nat) : Bool :=
  (48 ≤ b && b ≤ 57) || (65 ≤ b && b ≤ 90) || (97 ≤ b && b ≤ 122)

/-- The `NON_ALPHANUMERIC` `AsciiSet` of the percent-encoding crate:
all ASCII bytes that are not alphanumeric. -/
def nonAlphanumeric (b : Nat) : Bool := b < 128 && !(isAsciiAlphanumByte b)

/-- `TARGETS_FOR_PARAMS` (signer.rs): `NON_ALPHANUMERIC` with
`'-'`, `'.'`, `'_'`, `'~'` removed. -/
def targetsForParams (b : Nat) : Bool :=
  nonAlphanumeric b && !(b == 45 || b == 46 || b == 95 || b == 126)

/-- The percent-encoding crate escapes a byte iff it is non-ASCII or a
member of the given `AsciiSet`. -/
def shouldPercentEncode (b : Nat) : Bool := 128 ≤ b || targetsForParams b

/-- Uppercase hexadecimal digit for a value below 16. -/
def upperHexDigit (n : Nat) : Nat := if n < 10 then 48 + n else 55 + n

/-- Output bytes contributed by one input byte: the byte itself when it is
not escaped, otherwise the three-byte escape `%XY` with uppercase hex. -/
def encodeByte (b : Nat) : List Nat :=
  if shouldPercentEncode b then [37, upperHexDigit (b / 16), upperHexDigit (b % 16)]
  else [b]

/-- Byte-level percent encoding with `TARGETS_FOR_PARAMS`. -/
def percentEncodeBytes (bs : List Nat) : List Nat := bs.flatMap encodeByte

/-- Rebuild a string from a list of ASCII byte values. -/
def asciiString (bs : List Nat) : String := ⟨bs.map Char.ofNat⟩

/-- `percent_encode` (signer.rs): `utf8_percent_encode(input, TARGETS_FOR_PARAMS)`. -/
def percent_encode (s : String) : String :=
  asciiString (percentEncodeBytes (strBytes s))

/-- The unreserved byte set named by the specification:
ALPHA, DIGIT, `'-'`, `'.'`, `'_'`, `'~'`. -/
def isUnreservedByte (b : Nat) : Bool :=
  isAsciiAlphanumByte b || b == 45 || b == 46 || b == 95 || b == 126

/-- Uppercase-hex-digit test on a byte value (`0`-`9` or `A`-`F`). -/
def isUpperHexDigitByte (b : Nat) : Bool :=
  (48 ≤ b && b ≤ 57) || (65 ≤ b && b ≤ 70)


/-! ### Byte-wise comparison and sorting (Rust derived `Ord`) -/

/-- Three-way comparison of naturals, as Rust's `Ord::cmp` on integers. -/
def byteCmp (a b : Nat) : Ordering :=
  if a < b then Ordering.lt else if b < a then Ordering.gt else Ordering.eq

/-- Lexicographic three-way comparison of character lists; Rust compares
strings byte-wise on UTF-8, whose order coincides with this code-point
order. -/
def charListCmp : List Char → List Char → Ordering
  | [], [] => Ordering.eq
  | [], _ :: _ => Ordering.lt
  | _ :: _, [] => Ordering.gt
  | a :: as, b :: bs =>
    match byteCmp a.toNat b.toNat with
    | Ordering.eq => charListCmp as bs
    | o => o

/-- Rust's derived `Ord` on a pair of strings: first component, then
second. -/
def pairCmp (p q : String × String) : Ordering :=
  match charListCmp p.1.data q.1.data with
  | Ordering.eq => charListCmp p.2.data q.2.data
  | o => o

/-- The "less or equal" relation the aggregated parameter list is sorted
by (`payload.sort()` in signer.rs). -/
def pairLe (p q : String × String) : Prop := pairCmp p q ≠ Ordering.gt

instance : DecidableRel pairLe := fun p q =>
  inferInstanceAs (Decidable (pairCmp p q ≠ Ordering.gt))


/-! ### SHA-1, HMAC-SHA1 and base64 -/

/-- Word arithmetic modulo two to the thirty-two. -/
def w32 (n : Nat) : Nat := n % 4294967296

/-- Rotate a 32-bit word left by `n` bits. -/
def rotl32 (n x : Nat) : Nat := w32 (x <<< n) ||| (x >>> (32 - n))

/-- Big-endian eight-byte rendering of a length in bits. -/
def beBytes8 (n : Nat) : List Nat :=
  [(n >>> 56) &&& 255, (n >>> 48) &&& 255, (n >>> 40) &&& 255, (n >>> 32) &&& 255,
   (n >>> 24) &&& 255, (n >>> 16) &&& 255, (n >>> 8) &&& 255, n &&& 255]

/-- Big-endian four-byte rendering of a 32-bit word. -/
def beBytes4 (n : Nat) : List Nat :=
  [(n >>> 24) &&& 255, (n >>> 16) &&& 255, (n >>> 8) &&& 255, n &&& 255]

/-- SHA-1 message padding. -/
def sha1Pad (bs : List Nat) : List Nat :=
  let l := bs.length
  let k := (64 - ((l + 9) % 64)) % 64
  bs ++ [128] ++ List.replicate k 0 ++ beBytes8 (8 * l)

/-- Group bytes into big-endian 32-bit words. -/
def toWords : List Nat → List Nat
  | b1 :: b2 :: b3 :: b4 :: rest =>
    ((((b1 <<< 8) ||| b2) <<< 8 ||| b3) <<< 8 ||| b4) :: toWords rest
  | _ => []

/-- Split a byte list into 64-byte blocks (`fuel` bounds the recursion;
callers pass the list length). -/
def chunks64 : Nat → List Nat → List (List Nat)
  | 0, _ => []
  | _, [] => []
  | fuel + 1, bs => bs.take 64 :: chunks64 fuel (bs.drop 64)

/-- Message-schedule expansion from 16 to 80 words. -/
def expandLoop : Nat → List Nat → List Nat
  | 0, ws => ws
  | fuel + 1, ws =>
    let n := ws.length
    expandLoop fuel (ws ++ [rotl32 1
      ((ws.getD (n - 3) 0) ^^^ (ws.getD (n - 8) 0) ^^^
       (ws.getD (n - 14) 0) ^^^ (ws.getD (n - 16) 0))])

/-- SHA-1 round function. -/
def sha1F (i b c d : Nat) : Nat :=
  if i < 20 then (b &&& c) ||| ((b ^^^ 4294967295) &&& d)
  else if i < 40 then b ^^^ c ^^^ d
  else if i < 60 then (b &&& c) ||| (b &&& d) ||| (c &&& d)
  else b ^^^ c ^^^ d

/-- SHA-1 round constants. -/
def sha1K (i : Nat) : Nat :=
  if i < 20 then 1518500249
  else if i < 40 then 1859775393
  else if i < 60 then 2400959708
  else 3395469782

/-- One SHA-1 block compression. -/
def sha1Compress (h : Nat × Nat × Nat × Nat × Nat) (block : List Nat) :
    Nat × Nat × Nat × Nat × Nat :=
  let ws := expandLoop 64 (toWords block)
  let st := (List.range 80).foldl (fun st i =>
    let a := st.1
    let b := st.2.1
    let c := st.2.2.1
    let d := st.2.2.2.1
    let e := st.2.2.2.2
    let t := w32 (rotl32 5 a + sha1F i b c d + e + sha1K i + ws.getD i 0)
    (t, a, rotl32 30 b, c, d)) h
  (w32 (h.1 + st.1), w32 (h.2.1 + st.2.1), w32 (h.2.2.1 + st.2.2.1),
   w32 (h.2.2.2.1 + st.2.2.2.1), w32 (h.2.2.2.2 + st.2.2.2.2))

/-- SHA-1 digest (20 bytes) of a byte sequence. -/
def sha1 (msg : List Nat) : List Nat :=
  let padded := sha1Pad msg
  let blocks := chunks64 padded.length padded
  let h := blocks.foldl sha1Compress
    (1732584193, 4023233417, 2562383102, 271733878, 3285377520)
  beBytes4 h.1 ++ beBytes4 h.2.1 ++ beBytes4 h.2.2.1 ++
    beBytes4 h.2.2.2.1 ++ beBytes4 h.2.2.2.2

/-- HMAC-SHA1 (RFC 2104) of a message under a key of any length. -/
def hmacSha1 (key msg : List Nat) : List Nat :=
  let k0 := if 64 < key.length then sha1 key else key
  let k := k0 ++ List.replicate (64 - k0.length) 0
  let ipad := k.map (fun b => b ^^^ 54)
  let opad := k.map (fun b => b ^^^ 92)
  sha1 (opad ++ sha1 (ipad ++ msg))

/-- Standard base64 alphabet. -/
def b64Digit (n : Nat) : Char :=
  "ABCDEFGHIJKLMNOPQRSTUVWXYZabcdefghijklmnopqrstuvwxyz0123456789+/".data.getD n 'A'

/-- Standard base64 encoding with padding, no line wraps. -/
def base64Chars : List Nat → List Char
  | b1 :: b2 :: b3 :: rest =>
    b64Digit (b1 >>> 2) :: b64Digit (((b1 &&& 3) <<< 4) ||| (b2 >>> 4)) ::
    b64Digit (((b2 &&& 15) <<< 2) ||| (b3 >>> 6)) :: b64Digit (b3 &&& 63) ::
    base64Chars rest
  | [b1, b2] =>
    [b64Digit (b1 >>> 2), b64Digit (((b1 &&& 3) <<< 4) ||| (b2 >>> 4)),
     b64Digit ((b2 &&& 15) <<< 2), Char.ofNat 61]
  | [b1] =>
    [b64Digit (b1 >>> 2), b64Digit ((b1 &&& 3) <<< 4), Char.ofNat 61, Char.ofNat 61]
  | [] => []

/-- `base64::encode`. -/
def base64 (bs : List Nat) : String := ⟨base64Chars bs⟩


/-! ### Data model (parameters.rs, values.rs, signer.rs) -/

/-- Opaque model of Rust's `std::io::Error`; the code never inspects or
augments the error it propagates. -/
structure IoError where
  msg : String
deriving DecidableEq

/-- The file system seen by `File::open` + `read_to_end`, as an explicit
environment: path to raw bytes or an I/O error. -/
def FileSystem : Type := String → Except IoError (List Nat)

/-- `OAuthParameter` (parameters.rs). An `f64` is represented by the
decimal string Rust's `Display` would produce for it. -/
inductive OAuthParameter where
  | stringValue (s : String)
  | intValue (n : Int)
  | floatValue (decimal : String)
  | fileValue (path : String)
  | byteValue (bytes : List Nat)
  | namedByteValue (name : String) (bytes : List Nat)
deriving DecidableEq

/-- `EncodedParameter` (signer.rs). -/
inductive EncodedParameter where
  | stringValue (s : String)
  | fileValue (name : String) (content : Except IoError String)

/-- `EncodedParameter::read_file_as_encoded_bytes`: read the whole file and
base64-encode it (no percent-encoding is applied here). -/
def read_file_as_encoded_bytes (fs : FileSystem) (path : String) :
    Except IoError String :=
  (fs path).map base64

/-- Model of `Path::file_name().and_then(to_str).unwrap_or("")` for
Unix-style paths: the final component, with empty and `.` components
ignored, and the empty string for a path ending in `..` or having no
component. -/
def rustFileName (path : String) : String :=
  let comps := (path.splitOn "/").filter (fun c => c != "" && c != ".")
  match comps.getLast? with
  | some c => if c = ".." then "" else c
  | none => ""

/-- `From<OAuthParameter> for EncodedParameter` (signer.rs). Note that the
file-read result is base64 only, while `ByteValue`/`NamedByteValue`
content is base64 followed by percent-encoding. -/
def encodedParameterFrom (fs : FileSystem) : OAuthParameter → EncodedParameter
  | .stringValue s => .stringValue (percent_encode s)
  | .intValue n => .stringValue (percent_encode (toString n))
  | .floatValue d => .stringValue (percent_encode d)
  | .byteValue b => .stringValue (percent_encode (base64 b))
  | .namedByteValue n b => .fileValue (percent_encode n) (Except.ok (percent_encode (base64 b)))
  | .fileValue path =>
    .fileValue (percent_encode (rustFileName path)) (read_file_as_encoded_bytes fs path)

/-- `EncodedParameter::get_str`; `format_multipart_content` is the identity
stub in the source. -/
def EncodedParameter.getStr : EncodedParameter → Except IoError String
  | .stringValue s => Except.ok s
  | .fileValue _ r => r

/-- `SignatureMethod` (values.rs). -/
inductive SignatureMethod where
  | plainText
  | hmacSha1
deriving DecidableEq

/-- `Into<&str> for SignatureMethod`. -/
def SignatureMethod.toStr : SignatureMethod → String
  | .plainText => "PLAINTEXT"
  | .hmacSha1 => "HMAC-SHA1"

/-- `OAuthVersion` (values.rs). -/
inductive OAuthVersion where
  | none
  | default
  | custom (s : String)
deriving DecidableEq

/-- `Into<Option<Cow<str>>> for OAuthVersion`. -/
def OAuthVersion.intoOption : OAuthVersion → Option String
  | .none => Option.none
  | .default => some "1.0"
  | .custom s => some s

/-- `SignedContent` (signer.rs). -/
structure SignedContent where
  signature : String
  nonce : String
  payload : List (String × String)
  timestamp : Int
deriving DecidableEq

/-- `Signer` (signer.rs); the token is kept outside (it is a type-state
parameter in the source). -/
structure Signer where
  consumer_key : String
  endpoint : String
  http_method : String
  nonce : Option String
  signature_method : SignatureMethod
  timestamp : Option Int
  version : OAuthVersion
deriving DecidableEq

/-- `Signer::new` for a tokenless signer: defaults are HMAC-SHA1, no
nonce, no timestamp, OAuth version `Default`. -/
def Signer.new (consumer_key endpoint http_method : String) : Signer :=
  ⟨consumer_key, endpoint, http_method, Option.none, SignatureMethod.hmacSha1,
   Option.none, OAuthVersion.default⟩

/-- `build_basic_params` (signer.rs). The token pair is keyed by
`OAUTH_PARAM_KEY_TOKEN`, whose value in the source is the string
`"oauth_nonce"` (signer.rs line 26). -/
def build_basic_params (consumer_key : String) (token : Option String)
    (signature_method : SignatureMethod) (nonce : String) (timestamp : Int)
    (version : Option String) : List (String × String) :=
  let params : List (String × Option String) := [
    ("oauth_timestamp", some (toString timestamp)),
    ("oauth_consumer_key", some consumer_key),
    ("oauth_signature_method", some signature_method.toStr),
    ("oauth_nonce", some nonce),
    ("oauth_version", version),
    ("oauth_nonce", token)]
  params.filterMap (fun kv => kv.2.map (fun v => (kv.1, percent_encode v)))

/-- `generate_signature_plaintext` (signer.rs): the secrets are joined
with `&` without percent-encoding. -/
def generate_signature_plaintext (consumer_secret : String)
    (token_secret : Option String) : String :=
  consumer_secret ++ "&" ++ token_secret.getD ""

/-- `str::to_ascii_uppercase`. -/
def toAsciiUpper (s : String) : String :=
  ⟨s.data.map (fun c =>
    if 97 ≤ c.toNat && c.toNat ≤ 122 then Char.ofNat (c.toNat - 32) else c)⟩

/-- The `key=value` parameter string: pairs keyed `realm` are skipped,
the rest joined with `&` (generate_signature_hmacsha1, signer.rs). -/
def paramString (payload : List (String × String)) : String :=
  String.intercalate "&"
    ((payload.filter (fun kv => kv.1 != "realm")).map (fun kv => kv.1 ++ "=" ++ kv.2))

/-- `generate_signature_hmacsha1` (signer.rs). -/
def generate_signature_hmacsha1 (consumer_secret : String)
    (token_secret : Option String) (http_method endpoint : String)
    (encoded_params : List (String × String)) : String :=
  let methodUp := toAsciiUpper http_method
  let ps := paramString encoded_params
  let base_str := percent_encode methodUp ++ "&" ++ percent_encode endpoint ++
    "&" ++ percent_encode ps
  let sign_key := percent_encode consumer_secret ++ "&" ++
    percent_encode (token_secret.getD "")
  base64 (hmacSha1 (strBytes sign_key) (strBytes base_str))

/-- Encoding of the user parameter list, collected as in
`parameters.into_iter().map(..).collect::<io::Result<Vec<_>>>()`:
the first failure aborts. -/
def encodeUserParams (fs : FileSystem) :
    List (String × OAuthParameter) → Except IoError (List (String × String))
  | [] => Except.ok []
  | (k, v) :: rest =>
    match (encodedParameterFrom fs v).getStr with
    | Except.error e => Except.error e
    | Except.ok s =>
      match encodeUserParams fs rest with
      | Except.error e => Except.error e
      | Except.ok r => Except.ok ((k, s) :: r)

/-- `sign_oauthv1` (signer.rs). `now` models `Utc::now().timestamp()` and
`freshNonce` models `Uuid::new_v4()`: both are consulted only when the
corresponding option is `none`. -/
def sign_oauthv1 (fs : FileSystem) (now : Int) (freshNonce : String)
    (endpoint http_method : String)
    (consumer_key_and_secret : String × String)
    (token_and_secret : Option (String × String))
    (signature_method : SignatureMethod)
    (nonce : Option String) (version : OAuthVersion) (timestamp : Option Int)
    (parameters : List (String × OAuthParameter)) :
    Except IoError SignedContent :=
  let cKey := consumer_key_and_secret.1
  let cSecret := consumer_key_and_secret.2
  let token := token_and_secret.map Prod.fst
  let tokenSecret := token_and_secret.map Prod.snd
  let ts := timestamp.getD now
  let nonceUsed := nonce.getD freshNonce
  let basic := build_basic_params cKey token signature_method nonceUsed ts
    version.intoOption
  match encodeUserParams fs parameters with
  | Except.error e => Except.error e
  | Except.ok user =>
    let payload := List.insertionSort pairLe (basic ++ user)
    let signature := match signature_method with
      | SignatureMethod.plainText => generate_signature_plaintext cSecret tokenSecret
      | SignatureMethod.hmacSha1 =>
        generate_signature_hmacsha1 cSecret tokenSecret http_method endpoint payload
    Except.ok ⟨signature, nonceUsed, payload, ts⟩

/-- Model of `std::collections::HashMap::insert` on an association list:
replace the value when the key is present, otherwise add the entry. -/
def mapInsert (m : List (String × String)) (k v : String) :
    List (String × String) :=
  if m.any (fun kv => kv.1 == k) then
    m.map (fun kv => if kv.1 == k then (k, v) else kv)
  else m ++ [(k, v)]

/-- `OAuthSignBuilder::add_param` (v1.rs): both key and value are
percent-encoded and inserted into the builder's `HashMap`. -/
def add_param (m : List (String × String)) (key value : String) :
    List (String × String) :=
  mapInsert m (percent_encode key) (percent_encode value)

/-! ### Supporting lemmas about the pipeline -/

/-- The encoded pair an infallible (or successfully read) parameter
contributes. -/
def encOk (fs : FileSystem) (kv : String × OAuthParameter) : String × String :=
  (kv.1, match (encodedParameterFrom fs kv.2).getStr with
         | Except.ok s => s
         | Except.error _ => "")


/-! ### URL query decomposition (util.rs) -/

/-- Split a character list at every occurrence of `sep`, as Rust's
`str::split`. -/
def charSplit (sep : Char) : List Char → List (List Char)
  | [] => [[]]
  | x :: rest =>
    if x = sep then [] :: charSplit sep rest
    else
      match charSplit sep rest with
      | [] => [[x]]
      | h :: t => (x :: h) :: t

/-- Split at the first `'='`, as Rust's `splitn(2, '=')` when it yields
two pieces; `none` when the segment has no `'='`. -/
def splitFirstEq : List Char → Option (List Char × List Char)
  | [] => Option.none
  | c :: rest =>
    if c = '=' then some ([], rest)
    else (splitFirstEq rest).map (fun p => (c :: p.1, p.2))

/-- `destructure_query` (util.rs): strip leading `'?'` characters, split on
`'&'`, drop empty segments, split each segment at its first `'='` and drop
segments without one. -/
def destructure_query (query : String) : List (String × String) :=
  ((charSplit '&' (query.data.dropWhile (fun c => c = '?'))).filter
      (fun s => !s.isEmpty)).filterMap
    (fun s => (splitFirstEq s).map (fun p => (⟨p.1⟩, ⟨p.2⟩)))

/-- Model of a parsed `url::Url` restricted to the two views the code
reads: the serialization and the query part (everything after the first
`'?'`, without the `'?'`; fragments are not modeled). -/
structure ParsedUrl where
  serialization : String
  query : Option String
deriving DecidableEq

/-- `url_to_endpoint_and_queries` (util.rs): the part of the serialization
before the first `'?'`, plus the destructured query. -/
def url_to_endpoint_and_queries (u : ParsedUrl) : String × List (String × String) :=
  let vec := match u.query with
    | some q => destructure_query q
    | Option.none => []
  let body : Option String := ((charSplit '?' u.serialization.data).map
    (fun cs => (⟨cs⟩ : String))).head?
  (body.getD u.serialization, vec)

/-- The decomposition recipe exactly as the specification words it: split
the query on `'&'`, drop empty segments, split each segment at its first
`'='` keeping everything after it verbatim, drop segments without `'='`
(no stripping of leading `'?'`). -/
def claimQueryPairs (query : String) : List (String × String) :=
  ((charSplit '&' query.data).filter (fun s => !s.isEmpty)).filterMap
    (fun s => (splitFirstEq s).map (fun p => (⟨p.1⟩, ⟨p.2⟩)))

/-- A file system with a single one-byte file `f.bin` containing 0xFF;
every other path fails with a plain OS-style error. -/
def testFs : FileSystem := fun p =>
  if p = "f.bin" then Except.ok [255] else Except.error ⟨"enoent"⟩

/-- A file system on which every read fails. -/
def noFileSystem : FileSystem := fun _ => Except.error ⟨"enoent"⟩

set_option maxRecDepth 4000 in
/-- The crate's escape condition agrees with the complement of the
specification's unreserved set on byte values. -/
theorem shouldPercentEncode_eq_not_unreserved (b : Nat) (hb : b < 256) :
    shouldPercentEncode b = !isUnreservedByte b := by
  revert hb; revert b; decide

/-- The agreement extends to all naturals (values at least 256 are
escaped by the crate and outside the unreserved set). -/
theorem shouldPercentEncode_eq_not_unreserved_all (b : Nat) :
    shouldPercentEncode b = !isUnreservedByte b := by
  rcases Nat.lt_or_ge b 256 with h | h
  · exact shouldPercentEncode_eq_not_unreserved b h
  · have h128 : (128 ≤ b) := by omega
    have h1 : shouldPercentEncode b = true := by
      unfold shouldPercentEncode
      rw [decide_eq_true h128, Bool.true_or]
    have e57 : decide (b ≤ 57) = false := decide_eq_false (by omega)
    have e90 : decide (b ≤ 90) = false := decide_eq_false (by omega)
    have e122 : decide (b ≤ 122) = false := decide_eq_false (by omega)
    have e45 : (b == 45) = false := by
      rw [beq_eq_false_iff_ne]; omega
    have e46 : (b == 46) = false := by
      rw [beq_eq_false_iff_ne]; omega
    have e95 : (b == 95) = false := by
      rw [beq_eq_false_iff_ne]; omega
    have e126 : (b == 126) = false := by
      rw [beq_eq_false_iff_ne]; omega
    have h2 : isUnreservedByte b = false := by
      unfold isUnreservedByte isAsciiAlphanumByte
      rw [e57, e90, e122, e45, e46, e95, e126]
      simp
    rw [h1, h2]; rfl

/-- Hex digits emitted by the encoder are uppercase (never `a`-`f`). -/
theorem upperHexDigit_isUpper (n : Nat) (h : n < 16) :
    isUpperHexDigitByte (upperHexDigit n) = true := by
  unfold upperHexDigit isUpperHexDigitByte
  split <;>
    · simp only [Bool.or_eq_true, Bool.and_eq_true, decide_eq_true_eq]
      first
        | exact Or.inl ⟨by omega, by omega⟩
        | exact Or.inr ⟨by omega, by omega⟩

/-- Unreserved bytes pass through `percentEncodeBytes` unchanged. -/
theorem percentEncodeBytes_of_unreserved (bs : List Nat)
    (h : ∀ b ∈ bs, isUnreservedByte b = true) : percentEncodeBytes bs = bs := by
  induction bs with
  | nil => rfl
  | cons b rest ih =>
    have hb : isUnreservedByte b = true := h b (List.mem_cons_self b rest)
    have henc : encodeByte b = [b] := by
      unfold encodeByte
      rw [shouldPercentEncode_eq_not_unreserved_all, hb]
      rfl
    have hrest : percentEncodeBytes rest = rest :=
      ih (fun x hx => h x (List.mem_cons_of_mem b hx))
    simp only [percentEncodeBytes, List.flatMap_cons] at *
    rw [henc, hrest]
    rfl

/-- Every output byte of `percentEncodeBytes` is an unreserved byte or part
of an escape (`'%'` or an uppercase hex digit); in particular no lowercase
hex digit is ever produced. -/
theorem percentEncodeBytes_output_unreserved (bs : List Nat)
    (h : ∀ b ∈ bs, b < 256) :
    ∀ c ∈ percentEncodeBytes bs, isUnreservedByte c = true ∨ c = 37 ∨
      isUpperHexDigitByte c = true := by
  intro c hc
  simp only [percentEncodeBytes, List.mem_flatMap] at hc
  obtain ⟨b, hb, hcb⟩ := hc
  have hb256 : b < 256 := h b hb
  revert hcb
  unfold encodeByte
  rw [shouldPercentEncode_eq_not_unreserved_all]
  by_cases hu : isUnreservedByte b = true
  · rw [hu]
    simp only [Bool.not_true, Bool.false_eq_true, if_false, List.mem_singleton]
    intro hcb; subst hcb; exact Or.inl hu
  · rw [Bool.not_eq_true] at hu
    rw [hu]
    simp only [Bool.not_false, if_true, List.mem_cons, List.mem_singleton,
      List.not_mem_nil, or_false]
    intro hcb
    rcases hcb with h1 | h2 | h3
    · exact Or.inr (Or.inl h1)
    · subst h2
      exact Or.inr (Or.inr (upperHexDigit_isUpper _ (by omega)))
    · subst h3
      exact Or.inr (Or.inr (upperHexDigit_isUpper _ (by omega)))

/-- `percentEncodeBytes` agrees with the specification's per-byte
description: unreserved bytes pass unchanged, every other byte becomes the
three-byte escape with uppercase hex digits of its value. -/
theorem percentEncodeBytes_eq_claim (bs : List Nat) :
    percentEncodeBytes bs = bs.flatMap (fun b =>
      if isUnreservedByte b then [b]
      else [37, upperHexDigit (b / 16), upperHexDigit (b % 16)]) := by
  induction bs with
  | nil => rfl
  | cons b rest ih =>
    simp only [percentEncodeBytes, List.flatMap_cons] at *
    rw [ih]
    congr 1
    unfold encodeByte
    rw [shouldPercentEncode_eq_not_unreserved_all]
    by_cases hu : isUnreservedByte b = true
    · rw [hu]; rfl
    · rw [Bool.not_eq_true] at hu; rw [hu]; rfl
theorem byteCmp_swap (a b : Nat) : (byteCmp a b).swap = byteCmp b a := by
  unfold byteCmp
  rcases Nat.lt_trichotomy a b with h | h | h
  · rw [if_pos h, if_neg (by omega), if_pos h]; rfl
  · rw [if_neg (by omega), if_neg (by omega), if_neg (by omega), if_neg (by omega)]; rfl
  · rw [if_neg (by omega), if_pos h, if_pos h]; rfl

theorem byteCmp_eq_iff (a b : Nat) : byteCmp a b = Ordering.eq ↔ a = b := by
  unfold byteCmp
  rcases Nat.lt_trichotomy a b with h | h | h
  · rw [if_pos h]; constructor <;> intro hc <;> [cases hc; omega]
  · rw [if_neg (by omega), if_neg (by omega)]; constructor <;> intro <;> [omega; rfl]
  · rw [if_neg (by omega), if_pos h]; constructor <;> intro hc <;> [cases hc; omega]

theorem byteCmp_trans_le (a b c : Nat) (h1 : byteCmp a b ≠ Ordering.gt)
    (h2 : byteCmp b c ≠ Ordering.gt) : byteCmp a c ≠ Ordering.gt := by
  unfold byteCmp at *
  rcases Nat.lt_trichotomy a b with hab | hab | hab <;>
    rcases Nat.lt_trichotomy b c with hbc | hbc | hbc <;>
      first
        | (rw [if_neg (by omega)] at h1; rw [if_pos (by omega)] at h1; exact absurd rfl h1)
        | (rw [if_neg (by omega)] at h2; rw [if_pos (by omega)] at h2; exact absurd rfl h2)
        | (rw [if_pos (by omega)]; exact Ordering.noConfusion)
        | (rw [if_neg (by omega), if_neg (by omega)]; exact Ordering.noConfusion)

theorem charListCmp_swap (as bs : List Char) :
    (charListCmp as bs).swap = charListCmp bs as := by
  induction as generalizing bs with
  | nil => cases bs <;> rfl
  | cons a at' ih =>
    cases bs with
    | nil => rfl
    | cons b bt =>
      simp only [charListCmp]
      rw [← byteCmp_swap a.toNat b.toNat]
      cases hab : byteCmp a.toNat b.toNat
      case lt => rfl
      case gt => rfl
      case eq => exact ih bt

theorem charListCmp_eq_iff (as bs : List Char) :
    charListCmp as bs = Ordering.eq ↔ as = bs := by
  induction as generalizing bs with
  | nil => cases bs <;> simp [charListCmp]
  | cons a at' ih =>
    cases bs with
    | nil => simp [charListCmp]
    | cons b bt =>
      simp only [charListCmp]
      cases hab : byteCmp a.toNat b.toNat with
      | eq =>
        have hab' : a = b := Char.ext (by
          have := (byteCmp_eq_iff a.toNat b.toNat).mp hab
          exact UInt32.ext this)
        simp [ih, hab']
      | lt =>
        have : a ≠ b := by
          intro hcontra; subst hcontra
          rw [(byteCmp_eq_iff a.toNat a.toNat).mpr rfl] at hab; cases hab
        simp [this]
      | gt =>
        have : a ≠ b := by
          intro hcontra; subst hcontra
          rw [(byteCmp_eq_iff a.toNat a.toNat).mpr rfl] at hab; cases hab
        simp [this]

theorem charListCmp_trans_le (as bs cs : List Char)
    (h1 : charListCmp as bs ≠ Ordering.gt) (h2 : charListCmp bs cs ≠ Ordering.gt) :
    charListCmp as cs ≠ Ordering.gt := by
  induction as generalizing bs cs with
  | nil =>
    cases cs with
    | nil => exact Ordering.noConfusion
    | cons c ct => simp [charListCmp]
  | cons a at' ih =>
    cases bs with
    | nil => cases cs <;> simp [charListCmp] at h1
    | cons b bt =>
      cases cs with
      | nil => simp [charListCmp] at h2
      | cons c ct =>
        simp only [charListCmp] at *
        cases hab : byteCmp a.toNat b.toNat with
        | gt => rw [hab] at h1; simp at h1
        | eq =>
          rw [hab] at h1
          have hab' : a.toNat = b.toNat := (byteCmp_eq_iff _ _).mp hab
          cases hbc : byteCmp b.toNat c.toNat with
          | gt => rw [hbc] at h2; simp at h2
          | eq =>
            have hbc' : b.toNat = c.toNat := (byteCmp_eq_iff _ _).mp hbc
            rw [hbc] at h2
            rw [(byteCmp_eq_iff a.toNat c.toNat).mpr (hab'.trans hbc')]
            exact ih bt ct h1 h2
          | lt =>
            rw [hab'] ; rw [hbc]
            exact Ordering.noConfusion
        | lt =>
          cases hbc : byteCmp b.toNat c.toNat with
          | gt => rw [hbc] at h2; simp at h2
          | eq =>
            have hbc' : b.toNat = c.toNat := (byteCmp_eq_iff _ _).mp hbc
            rw [← hbc', hab]
            exact Ordering.noConfusion
          | lt =>
            have hac : byteCmp a.toNat c.toNat ≠ Ordering.gt :=
              byteCmp_trans_le _ _ _ (by rw [hab]; exact Ordering.noConfusion)
                (by rw [hbc]; exact Ordering.noConfusion)
            cases hac' : byteCmp a.toNat c.toNat with
            | lt => exact Ordering.noConfusion
            | gt => exact absurd hac' hac
            | eq =>
              have : a.toNat = c.toNat := (byteCmp_eq_iff _ _).mp hac'
              have hlt : a.toNat < b.toNat := by
                unfold byteCmp at hab
                by_contra hcon
                rw [if_neg hcon] at hab
                rcases Nat.lt_or_ge b.toNat a.toNat with hh | hh
                · rw [if_pos hh] at hab; cases hab
                · rw [if_neg (by omega)] at hab; cases hab
              have hlt2 : b.toNat < c.toNat := by
                unfold byteCmp at hbc
                by_contra hcon
                rw [if_neg hcon] at hbc
                rcases Nat.lt_or_ge c.toNat b.toNat with hh | hh
                · rw [if_pos hh] at hbc; cases hbc
                · rw [if_neg (by omega)] at hbc; cases hbc
              omega

theorem pairLe_total (p q : String × String) : pairLe p q ∨ pairLe q p := by
  unfold pairLe pairCmp
  rw [← charListCmp_swap p.1.data q.1.data]
  cases h1 : charListCmp p.1.data q.1.data with
  | lt => left; simp [Ordering.swap]
  | gt => right; simp [Ordering.swap]
  | eq =>
    rw [← charListCmp_swap p.2.data q.2.data]
    cases h2 : charListCmp p.2.data q.2.data with
    | lt => left; simp [Ordering.swap]
    | gt => right; simp [Ordering.swap]
    | eq => left; simp [Ordering.swap]

theorem string_eq_of_data {a b : String} (h : a.data = b.data) : a = b := by
  cases a; cases b; exact congrArg String.mk h

theorem pairLe_antisymm (p q : String × String)
    (h1 : pairLe p q) (h2 : pairLe q p) : p = q := by
  unfold pairLe pairCmp at h1 h2
  rw [← charListCmp_swap p.1.data q.1.data] at h2
  cases hk : charListCmp p.1.data q.1.data with
  | lt => rw [hk] at h2; simp [Ordering.swap] at h2
  | gt => rw [hk] at h1; simp at h1
  | eq =>
    rw [hk] at h1 h2
    simp only [Ordering.swap] at h2
    rw [← charListCmp_swap p.2.data q.2.data] at h2
    have hkey : p.1 = q.1 := string_eq_of_data ((charListCmp_eq_iff _ _).mp hk)
    cases hv : charListCmp p.2.data q.2.data with
    | gt => rw [hv] at h1; exact absurd rfl h1
    | lt => rw [hv] at h2; simp [Ordering.swap] at h2
    | eq =>
      have hval : p.2 = q.2 := string_eq_of_data ((charListCmp_eq_iff _ _).mp hv)
      exact Prod.ext hkey hval

theorem pairLe_trans (p q r : String × String)
    (h1 : pairLe p q) (h2 : pairLe q r) : pairLe p r := by
  unfold pairLe pairCmp at *
  cases hpq : charListCmp p.1.data q.1.data with
  | gt => rw [hpq] at h1; exact absurd rfl h1
  | eq =>
    have hpq' : p.1.data = q.1.data := (charListCmp_eq_iff _ _).mp hpq
    rw [hpq] at h1
    cases hqr : charListCmp q.1.data r.1.data with
    | gt => rw [hqr] at h2; exact absurd rfl h2
    | eq =>
      have hqr' : q.1.data = r.1.data := (charListCmp_eq_iff _ _).mp hqr
      rw [hqr] at h2
      rw [(charListCmp_eq_iff _ _).mpr (hpq'.trans hqr')]
      exact charListCmp_trans_le _ _ _ h1 h2
    | lt =>
      rw [hpq', hqr]
      exact Ordering.noConfusion
  | lt =>
    cases hqr : charListCmp q.1.data r.1.data with
    | gt => rw [hqr] at h2; exact absurd rfl h2
    | eq =>
      have hqr' : q.1.data = r.1.data := (charListCmp_eq_iff _ _).mp hqr
      rw [← hqr', hpq]
      exact Ordering.noConfusion
    | lt =>
      have hac := charListCmp_trans_le p.1.data q.1.data r.1.data
        (by rw [hpq]; exact Ordering.noConfusion) (by rw [hqr]; exact Ordering.noConfusion)
      cases hpr : charListCmp p.1.data r.1.data with
      | lt => exact Ordering.noConfusion
      | gt => exact absurd hpr hac
      | eq =>
        have h1' : p.1.data = r.1.data := (charListCmp_eq_iff _ _).mp hpr
        have hgt : charListCmp q.1.data p.1.data = Ordering.lt := by
          rw [h1', hqr]
        have := charListCmp_swap q.1.data p.1.data
        rw [hgt] at this
        simp only [Ordering.swap] at this
        rw [hpq] at this
        cases this


theorem encodeUserParams_ok_elim (fs : FileSystem)
    (ps : List (String × OAuthParameter)) (u : List (String × String))
    (h : encodeUserParams fs ps = Except.ok u) :
    u = ps.map (encOk fs) ∧
      ∀ kv ∈ ps, ∃ s, (encodedParameterFrom fs kv.2).getStr = Except.ok s := by
  induction ps generalizing u with
  | nil =>
    simp only [encodeUserParams, Except.ok.injEq] at h
    subst h
    exact ⟨rfl, by intro kv hkv; cases hkv⟩
  | cons kv rest ih =>
    obtain ⟨k, v⟩ := kv
    simp only [encodeUserParams] at h
    cases hv : (encodedParameterFrom fs v).getStr with
    | error e => rw [hv] at h; cases h
    | ok s =>
      rw [hv] at h
      cases hr : encodeUserParams fs rest with
      | error e => rw [hr] at h; cases h
      | ok r =>
        rw [hr] at h
        simp only [Except.ok.injEq] at h
        subst h
        obtain ⟨hmap, hall⟩ := ih r hr
        constructor
        · simp only [List.map_cons, encOk, hv]
          rw [← hmap]
        · intro kv hkv
          rcases List.mem_cons.mp hkv with heq | hmem
          · subst heq; exact ⟨s, hv⟩
          · exact hall kv hmem

theorem encodeUserParams_ok_intro (fs : FileSystem)
    (ps : List (String × OAuthParameter))
    (h : ∀ kv ∈ ps, ∃ s, (encodedParameterFrom fs kv.2).getStr = Except.ok s) :
    encodeUserParams fs ps = Except.ok (ps.map (encOk fs)) := by
  induction ps with
  | nil => rfl
  | cons kv rest ih =>
    obtain ⟨k, v⟩ := kv
    obtain ⟨s, hs⟩ := h (k, v) (List.mem_cons_self _ _)
    have hrest := ih (fun kv hkv => h kv (List.mem_cons_of_mem _ hkv))
    simp only [encodeUserParams, hs, hrest, List.map_cons, encOk]

/-- Sorting commutes with any filter up to the filtered input, for the
total order used by the payload sort. -/
theorem filter_insertionSort_eq_of_perm (q : String × String → Bool)
    (A B : List (String × String)) (h : A.filter q = B.filter q) :
    (List.insertionSort pairLe A).filter q =
      (List.insertionSort pairLe B).filter q := by
  haveI : IsTotal (String × String) pairLe := ⟨pairLe_total⟩
  haveI : IsTrans (String × String) pairLe := ⟨pairLe_trans⟩
  haveI : IsAntisymm (String × String) pairLe := ⟨pairLe_antisymm⟩
  apply List.eq_of_perm_of_sorted (r := pairLe)
  · have p1 : (List.insertionSort pairLe A).filter q |>.Perm (A.filter q) :=
      (List.perm_insertionSort pairLe A).filter q
    have p2 : (A.filter q).Perm ((List.insertionSort pairLe B).filter q) := by
      rw [h]; exact ((List.perm_insertionSort pairLe B).filter q).symm
    exact p1.trans p2
  · exact (List.sorted_insertionSort pairLe A).filter q
  · exact (List.sorted_insertionSort pairLe B).filter q

/-! ### Claim theorems -/

/-- Claim C2: the percent-encoding used for parameters and signing leaves
every unreserved byte unchanged, replaces every other byte with the
three-character escape of its uppercase hexadecimal value, never emits a
lowercase hex digit, never fails (it is a total function, with empty input
giving empty output), and is idempotent on unreserved-only inputs. -/
theorem claim_c2_percent_encoding :
    (∀ bs : List Nat, (∀ b ∈ bs, isUnreservedByte b = true) →
      percentEncodeBytes bs = bs) ∧
    (∀ bs : List Nat, percentEncodeBytes bs = bs.flatMap (fun b =>
      if isUnreservedByte b then [b]
      else [37, upperHexDigit (b / 16), upperHexDigit (b % 16)])) ∧
    (∀ b : Nat, b < 256 → isUpperHexDigitByte (upperHexDigit (b / 16)) = true ∧
      isUpperHexDigitByte (upperHexDigit (b % 16)) = true) ∧
    (∀ bs : List Nat, (∀ b ∈ bs, b < 256) → ∀ c ∈ percentEncodeBytes bs,
      isUnreservedByte c = true ∨ c = 37 ∨ isUpperHexDigitByte c = true) ∧
    (∀ bs : List Nat, (∀ b ∈ bs, isUnreservedByte b = true) →
      percentEncodeBytes (percentEncodeBytes bs) = percentEncodeBytes bs) ∧
    percentEncodeBytes [] = [] := by
  refine ⟨percentEncodeBytes_of_unreserved, percentEncodeBytes_eq_claim, ?_,
    percentEncodeBytes_output_unreserved, ?_, rfl⟩
  · intro b hb
    exact ⟨upperHexDigit_isUpper _ (by omega), upperHexDigit_isUpper _ (by omega)⟩
  · intro bs h
    rw [percentEncodeBytes_of_unreserved bs h, percentEncodeBytes_of_unreserved bs h]

/-- Witness for C2 at concrete inputs: `a-` is unchanged, and a space plus
a non-ASCII byte become uppercase escapes. -/
theorem claim_c2_percent_encoding_witness :
    percentEncodeBytes [97, 45] = [97, 45] ∧
    percentEncodeBytes [32, 255] = [37, 50, 48, 37, 70, 70] := by
  constructor
  · exact claim_c2_percent_encoding.1 [97, 45] (by decide)
  · rw [claim_c2_percent_encoding.2.1 [32, 255]]
    decide

/-- Claim C5 (code bug): signing with PLAINTEXT should produce
`percent_encode(consumer_secret) & percent_encode(token_secret_or_empty)`,
but `generate_signature_plaintext` joins the raw secrets without
percent-encoding: on consumer secret `a&b` the code emits `a&b&` while the
claimed value is `a%26b&`. -/
theorem claim_c5_plaintext_not_encoded :
    generate_signature_plaintext "a&b" Option.none = "a&b&" ∧
    percent_encode "a&b" ++ "&" ++ percent_encode "" = "a%26b&" ∧
    generate_signature_plaintext "a&b" Option.none ≠
      percent_encode "a&b" ++ "&" ++ percent_encode "" := by
  refine ⟨rfl, rfl, ?_⟩
  decide

/-- Claim C6 (code bug): the protocol pair carrying the bound token is
keyed `"oauth_nonce"`, not `"oauth_token"`, because `OAUTH_PARAM_KEY_TOKEN`
is defined as `"oauth_nonce"` (signer.rs line 26); no `oauth_token` key is
ever produced. -/
theorem claim_c6_token_key_is_oauth_nonce :
    build_basic_params "ck" (some "tok") SignatureMethod.hmacSha1 "n" 1 (some "1.0") =
      [("oauth_timestamp", "1"), ("oauth_consumer_key", "ck"),
       ("oauth_signature_method", "HMAC-SHA1"), ("oauth_nonce", "n"),
       ("oauth_version", "1.0"), ("oauth_nonce", "tok")] ∧
    (build_basic_params "ck" (some "tok") SignatureMethod.hmacSha1 "n" 1
        (some "1.0")).all (fun kv => kv.1 != "oauth_token") = true := by
  refine ⟨rfl, ?_⟩
  decide

/-- Claim C7 (code bug): a successfully read `FileReference` should behave
as `Bytes` (base64 then percent-encode), but the file content is base64
only: a file containing the byte 0xFF yields `/w==` while the `Bytes`
variant yields `%2Fw%3D%3D`; a failing read propagates the file system's
error unchanged (no path information is attached) and `sign` produces no
partial result. -/
theorem claim_c7_file_content_not_reencoded :
    (encodedParameterFrom testFs (OAuthParameter.fileValue "f.bin")).getStr =
      Except.ok "/w==" ∧
    (encodedParameterFrom testFs (OAuthParameter.byteValue [255])).getStr =
      Except.ok "%2Fw%3D%3D" ∧
    ("/w==" : String) ≠ "%2Fw%3D%3D" ∧
    sign_oauthv1 testFs 0 "x" "https://e" "POST" ("ck", "cs") Option.none
      SignatureMethod.plainText (some "n") OAuthVersion.none (some 0)
      [("file", OAuthParameter.fileValue "missing")] = Except.error ⟨"enoent"⟩ := by
  refine ⟨rfl, rfl, ?_, rfl⟩
  decide

/-- Counterexample to C8: `OAuthSignBuilder::add_param` (v1.rs) stores
parameters in a `HashMap` keyed by the encoded key, so adding two
parameters with the same key keeps only the last one instead of one pair
per added parameter. -/
theorem claim_c8_counterexample :
    add_param (add_param [] "a" "1") "a" "2" = [("a", "2")] ∧
    (add_param (add_param [] "a" "1") "a" "2").length ≠ 2 := by
  refine ⟨rfl, ?_⟩
  decide

/-- Counterexample to C10: on a query whose text begins with `'?'` the code
first strips the leading `'?'` characters, so the produced pairs differ
from the claim's split-only recipe. -/
theorem claim_c10_counterexample :
    destructure_query "?a=b" = [("a", "b")] ∧
    claimQueryPairs "?a=b" = [("?a", "b")] ∧
    destructure_query "?a=b" ≠ claimQueryPairs "?a=b" := by
  refine ⟨rfl, rfl, ?_⟩
  decide

/-- Unfolding of `sign_oauthv1` when every user parameter encodes
successfully. -/
theorem sign_oauthv1_ok_eq (fs : FileSystem) (now : Int) (fresh ep m : String)
    (cks : String × String) (tas : Option (String × String))
    (sm : SignatureMethod) (non : Option String) (ver : OAuthVersion)
    (ts : Option Int) (ps : List (String × OAuthParameter))
    (user : List (String × String))
    (h : encodeUserParams fs ps = Except.ok user) :
    sign_oauthv1 fs now fresh ep m cks tas sm non ver ts ps =
      Except.ok ⟨(match sm with
          | SignatureMethod.plainText =>
            generate_signature_plaintext cks.2 (tas.map Prod.snd)
          | SignatureMethod.hmacSha1 =>
            generate_signature_hmacsha1 cks.2 (tas.map Prod.snd) m ep
              (List.insertionSort pairLe
                (build_basic_params cks.1 (tas.map Prod.fst) sm (non.getD fresh)
                  (ts.getD now) ver.intoOption ++ user))),
        non.getD fresh,
        List.insertionSort pairLe
          (build_basic_params cks.1 (tas.map Prod.fst) sm (non.getD fresh)
            (ts.getD now) ver.intoOption ++ user),
        ts.getD now⟩ := by
  unfold sign_oauthv1
  rw [h]

/-- Unfolding of `sign_oauthv1` when encoding a user parameter fails. -/
theorem sign_oauthv1_error_eq (fs : FileSystem) (now : Int) (fresh ep m : String)
    (cks : String × String) (tas : Option (String × String))
    (sm : SignatureMethod) (non : Option String) (ver : OAuthVersion)
    (ts : Option Int) (ps : List (String × OAuthParameter)) (e : IoError)
    (h : encodeUserParams fs ps = Except.error e) :
    sign_oauthv1 fs now fresh ep m cks tas sm non ver ts ps =
      Except.error e := by
  unfold sign_oauthv1
  rw [h]

/-- The nonce protocol pair is always among the basic parameters. -/
theorem mem_basic_nonce (ck : String) (tok : Option String)
    (sm : SignatureMethod) (non : String) (ts : Int) (ver : Option String) :
    ("oauth_nonce", percent_encode non) ∈ build_basic_params ck tok sm non ts ver := by
  unfold build_basic_params
  apply List.mem_filterMap.mpr
  refine ⟨("oauth_nonce", some non), by simp, rfl⟩

/-- The timestamp protocol pair is always among the basic parameters. -/
theorem mem_basic_timestamp (ck : String) (tok : Option String)
    (sm : SignatureMethod) (non : String) (ts : Int) (ver : Option String) :
    ("oauth_timestamp", percent_encode (toString ts)) ∈
      build_basic_params ck tok sm non ts ver := by
  unfold build_basic_params
  apply List.mem_filterMap.mpr
  refine ⟨("oauth_timestamp", some (toString ts)), by simp, rfl⟩

/-- Amended C8: the `sign_oauthv1` aggregation itself never deduplicates:
the payload is a permutation of the basic parameters joined with one
encoded pair per user parameter, so its length is the sum of the two
counts even when keys repeat. (The separate `OAuthSignBuilder::add_param`
of v1.rs, by contrast, replaces same-key entries; see the
counterexample.) -/
theorem claim_c8_amended_no_dedup (fs : FileSystem) (now : Int)
    (fresh ep m : String) (cks : String × String)
    (tas : Option (String × String)) (sm : SignatureMethod)
    (non : Option String) (ver : OAuthVersion) (ts : Option Int)
    (ps : List (String × OAuthParameter)) (c : SignedContent)
    (h : sign_oauthv1 fs now fresh ep m cks tas sm non ver ts ps = Except.ok c) :
    c.payload.Perm
      (build_basic_params cks.1 (tas.map Prod.fst) sm (non.getD fresh)
        (ts.getD now) ver.intoOption ++ ps.map (encOk fs)) ∧
    c.payload.length =
      (build_basic_params cks.1 (tas.map Prod.fst) sm (non.getD fresh)
        (ts.getD now) ver.intoOption).length + ps.length := by
  cases he : encodeUserParams fs ps with
  | error e =>
    rw [sign_oauthv1_error_eq fs now fresh ep m cks tas sm non ver ts ps e he] at h
    cases h
  | ok user =>
    rw [sign_oauthv1_ok_eq fs now fresh ep m cks tas sm non ver ts ps user he] at h
    obtain ⟨humap, -⟩ := encodeUserParams_ok_elim fs ps user he
    subst humap
    cases h
    constructor
    · exact List.perm_insertionSort pairLe _
    · rw [(List.perm_insertionSort pairLe _).length_eq]
      rw [List.length_append, List.length_map]

/-- Witness for the amended C8: two user parameters with the same key both
survive into the payload. -/
theorem claim_c8_amended_no_dedup_witness :
    ([("a", "1"), ("a", "2"), ("oauth_consumer_key", "ck"),
        ("oauth_nonce", "n"), ("oauth_signature_method", "PLAINTEXT"),
        ("oauth_timestamp", "0")] : List (String × String)).Perm
      (build_basic_params "ck" Option.none SignatureMethod.plainText "n" 0
        Option.none ++
        [("a", OAuthParameter.stringValue "1"),
         ("a", OAuthParameter.stringValue "2")].map (encOk noFileSystem)) ∧
    ([("a", "1"), ("a", "2"), ("oauth_consumer_key", "ck"),
        ("oauth_nonce", "n"), ("oauth_signature_method", "PLAINTEXT"),
        ("oauth_timestamp", "0")] : List (String × String)).length =
      (build_basic_params "ck" Option.none SignatureMethod.plainText "n" 0
        Option.none).length + 2 := by
  exact claim_c8_amended_no_dedup noFileSystem 0 "n" "https://e" "POST"
    ("ck", "cs") Option.none SignatureMethod.plainText (some "n")
    OAuthVersion.none (some 0)
    [("a", OAuthParameter.stringValue "1"), ("a", OAuthParameter.stringValue "2")]
    ⟨"cs&", "n", [("a", "1"), ("a", "2"), ("oauth_consumer_key", "ck"),
      ("oauth_nonce", "n"), ("oauth_signature_method", "PLAINTEXT"),
      ("oauth_timestamp", "0")], 0⟩ (by rfl)

/-- Claim C9: nonce and timestamp defaults are resolved inside the sign
call (from the ambient fresh nonce and current time), explicitly set
values are used exactly, the returned `SignedContent` reports the values
actually placed in the `oauth_nonce` and `oauth_timestamp` protocol
parameters, and a freshly constructed signer defaults to HMAC-SHA1 with
OAuth version `"1.0"`. -/
theorem claim_c9_defaults_at_sign_time :
    (∀ fs now fresh ep m cks tas sm n ver t ps c,
      sign_oauthv1 fs now fresh ep m cks tas sm (some n) ver (some t) ps =
        Except.ok c →
      c.nonce = n ∧ c.timestamp = t ∧
        ("oauth_nonce", percent_encode n) ∈ c.payload ∧
        ("oauth_timestamp", percent_encode (toString t)) ∈ c.payload) ∧
    (∀ fs now fresh ep m cks tas sm ver ps c,
      sign_oauthv1 fs now fresh ep m cks tas sm Option.none ver Option.none ps =
        Except.ok c →
      c.nonce = fresh ∧ c.timestamp = now ∧
        ("oauth_nonce", percent_encode fresh) ∈ c.payload ∧
        ("oauth_timestamp", percent_encode (toString now)) ∈ c.payload) ∧
    (∀ ck ep m, (Signer.new ck ep m).signature_method = SignatureMethod.hmacSha1 ∧
      (Signer.new ck ep m).nonce = Option.none ∧
      (Signer.new ck ep m).timestamp = Option.none ∧
      (Signer.new ck ep m).version.intoOption = some "1.0") := by
  have main : ∀ (fs : FileSystem) (now : Int) (fresh ep m : String)
      (cks : String × String) (tas : Option (String × String))
      (sm : SignatureMethod) (non : Option String) (ver : OAuthVersion)
      (ts : Option Int) (ps : List (String × OAuthParameter))
      (c : SignedContent),
      sign_oauthv1 fs now fresh ep m cks tas sm non ver ts ps = Except.ok c →
      c.nonce = non.getD fresh ∧ c.timestamp = ts.getD now ∧
        ("oauth_nonce", percent_encode (non.getD fresh)) ∈ c.payload ∧
        ("oauth_timestamp", percent_encode (toString (ts.getD now))) ∈
          c.payload := by
    intro fs now fresh ep m cks tas sm non ver ts ps c h
    cases he : encodeUserParams fs ps with
    | error e =>
      rw [sign_oauthv1_error_eq fs now fresh ep m cks tas sm non ver ts ps e he] at h
      cases h
    | ok user =>
      rw [sign_oauthv1_ok_eq fs now fresh ep m cks tas sm non ver ts ps user he] at h
      cases h
      refine ⟨rfl, rfl, ?_, ?_⟩
      · exact ((List.perm_insertionSort pairLe _).mem_iff).mpr
          (List.mem_append_left _ (mem_basic_nonce _ _ _ _ _ _))
      · exact ((List.perm_insertionSort pairLe _).mem_iff).mpr
          (List.mem_append_left _ (mem_basic_timestamp _ _ _ _ _ _))
  refine ⟨?_, ?_, ?_⟩
  · intro fs now fresh ep m cks tas sm n ver t ps c h
    exact main fs now fresh ep m cks tas sm (some n) ver (some t) ps c h
  · intro fs now fresh ep m cks tas sm ver ps c h
    exact main fs now fresh ep m cks tas sm Option.none ver Option.none ps c h
  · intro ck ep m
    exact ⟨rfl, rfl, rfl, rfl⟩

/-- Witness for C9: with an explicit nonce and timestamp the returned
content carries exactly those values, in the fields and in the protocol
pairs. -/
theorem claim_c9_defaults_at_sign_time_witness :
    (⟨"cs&", "n", [("oauth_consumer_key", "ck"), ("oauth_nonce", "n"),
        ("oauth_signature_method", "PLAINTEXT"), ("oauth_timestamp", "7")],
      7⟩ : SignedContent).nonce = "n" ∧
    (⟨"cs&", "n", [("oauth_consumer_key", "ck"), ("oauth_nonce", "n"),
        ("oauth_signature_method", "PLAINTEXT"), ("oauth_timestamp", "7")],
      7⟩ : SignedContent).timestamp = 7 ∧
    ("oauth_nonce", percent_encode "n") ∈
      (⟨"cs&", "n", [("oauth_consumer_key", "ck"), ("oauth_nonce", "n"),
        ("oauth_signature_method", "PLAINTEXT"), ("oauth_timestamp", "7")],
      7⟩ : SignedContent).payload ∧
    ("oauth_timestamp", percent_encode (toString (7 : Int))) ∈
      (⟨"cs&", "n", [("oauth_consumer_key", "ck"), ("oauth_nonce", "n"),
        ("oauth_signature_method", "PLAINTEXT"), ("oauth_timestamp", "7")],
      7⟩ : SignedContent).payload := by
  exact claim_c9_defaults_at_sign_time.1 noFileSystem 0 "fresh" "https://e"
    "POST" ("ck", "cs") Option.none SignatureMethod.plainText "n"
    OAuthVersion.none 7 [] _ (by rfl)

/-- The HMAC-SHA1 signature depends on the payload only through the
parameter string. -/
theorem generate_signature_hmacsha1_congr (cs : String) (tsec : Option String)
    (m ep : String) (p1 p2 : List (String × String))
    (h : paramString p1 = paramString p2) :
    generate_signature_hmacsha1 cs tsec m ep p1 =
      generate_signature_hmacsha1 cs tsec m ep p2 := by
  unfold generate_signature_hmacsha1
  rw [h]

/-- Claim C3: the payload produced by `sign_oauthv1` is sorted ascending
by the byte-wise lexicographic order on the pair (key, value), and
permuting the user parameters leaves the sorted payload — and hence the
signature — unchanged. -/
theorem claim_c3_sorted_and_permutation_invariant :
    (∀ (fs : FileSystem) (now : Int) (fresh ep m : String)
      (cks : String × String) (tas : Option (String × String))
      (sm : SignatureMethod) (non : Option String) (ver : OAuthVersion)
      (ts : Option Int) (ps : List (String × OAuthParameter))
      (c : SignedContent),
      sign_oauthv1 fs now fresh ep m cks tas sm non ver ts ps = Except.ok c →
      c.payload.Sorted pairLe) ∧
    (∀ (fs : FileSystem) (now : Int) (fresh ep m : String)
      (cks : String × String) (tas : Option (String × String))
      (sm : SignatureMethod) (non : Option String) (ver : OAuthVersion)
      (ts : Option Int) (ps1 ps2 : List (String × OAuthParameter))
      (c1 c2 : SignedContent),
      ps1.Perm ps2 →
      sign_oauthv1 fs now fresh ep m cks tas sm non ver ts ps1 = Except.ok c1 →
      sign_oauthv1 fs now fresh ep m cks tas sm non ver ts ps2 = Except.ok c2 →
      c1.payload = c2.payload ∧ c1.signature = c2.signature) := by
  haveI : IsTotal (String × String) pairLe := ⟨pairLe_total⟩
  haveI : IsTrans (String × String) pairLe := ⟨pairLe_trans⟩
  haveI : IsAntisymm (String × String) pairLe := ⟨pairLe_antisymm⟩
  constructor
  · intro fs now fresh ep m cks tas sm non ver ts ps c h
    cases he : encodeUserParams fs ps with
    | error e =>
      rw [sign_oauthv1_error_eq fs now fresh ep m cks tas sm non ver ts ps e he] at h
      cases h
    | ok user =>
      rw [sign_oauthv1_ok_eq fs now fresh ep m cks tas sm non ver ts ps user he] at h
      cases h
      exact List.sorted_insertionSort pairLe _
  · intro fs now fresh ep m cks tas sm non ver ts ps1 ps2 c1 c2 hperm h1 h2
    cases he1 : encodeUserParams fs ps1 with
    | error e =>
      rw [sign_oauthv1_error_eq fs now fresh ep m cks tas sm non ver ts ps1 e he1] at h1
      cases h1
    | ok u1 =>
      cases he2 : encodeUserParams fs ps2 with
      | error e =>
        rw [sign_oauthv1_error_eq fs now fresh ep m cks tas sm non ver ts ps2 e he2] at h2
        cases h2
      | ok u2 =>
        rw [sign_oauthv1_ok_eq fs now fresh ep m cks tas sm non ver ts ps1 u1 he1] at h1
        rw [sign_oauthv1_ok_eq fs now fresh ep m cks tas sm non ver ts ps2 u2 he2] at h2
        obtain ⟨hu1, -⟩ := encodeUserParams_ok_elim fs ps1 u1 he1
        obtain ⟨hu2, -⟩ := encodeUserParams_ok_elim fs ps2 u2 he2
        subst hu1; subst hu2
        cases h1; cases h2
        have hpermu : (ps1.map (encOk fs)).Perm (ps2.map (encOk fs)) :=
          hperm.map (encOk fs)
        have hperm2 :
            (build_basic_params cks.1 (tas.map Prod.fst) sm (non.getD fresh)
                (ts.getD now) ver.intoOption ++ ps1.map (encOk fs)).Perm
              (build_basic_params cks.1 (tas.map Prod.fst) sm (non.getD fresh)
                (ts.getD now) ver.intoOption ++ ps2.map (encOk fs)) :=
          List.Perm.append_left _ hpermu
        have hpayload :
            List.insertionSort pairLe
              (build_basic_params cks.1 (tas.map Prod.fst) sm (non.getD fresh)
                (ts.getD now) ver.intoOption ++ ps1.map (encOk fs)) =
            List.insertionSort pairLe
              (build_basic_params cks.1 (tas.map Prod.fst) sm (non.getD fresh)
                (ts.getD now) ver.intoOption ++ ps2.map (encOk fs)) := by
          apply List.eq_of_perm_of_sorted (r := pairLe)
          · exact (List.perm_insertionSort pairLe _).trans
              (hperm2.trans (List.perm_insertionSort pairLe _).symm)
          · exact List.sorted_insertionSort pairLe _
          · exact List.sorted_insertionSort pairLe _
        refine ⟨hpayload, ?_⟩
        cases sm with
        | plainText => rfl
        | hmacSha1 =>
          exact generate_signature_hmacsha1_congr cks.2 (tas.map Prod.snd) m ep
            _ _ (by rw [hpayload])

/-- Witness for C3: two string parameters supplied in either order
produce the same sorted payload and the same signature. -/
theorem claim_c3_sorted_and_permutation_invariant_witness :
    (⟨"cs&", "n", [("a", "1"), ("b", "2"), ("oauth_consumer_key", "ck"),
        ("oauth_nonce", "n"), ("oauth_signature_method", "PLAINTEXT"),
        ("oauth_timestamp", "0")], 0⟩ : SignedContent).payload =
      (⟨"cs&", "n", [("a", "1"), ("b", "2"), ("oauth_consumer_key", "ck"),
        ("oauth_nonce", "n"), ("oauth_signature_method", "PLAINTEXT"),
        ("oauth_timestamp", "0")], 0⟩ : SignedContent).payload ∧
    (⟨"cs&", "n", [("a", "1"), ("b", "2"), ("oauth_consumer_key", "ck"),
        ("oauth_nonce", "n"), ("oauth_signature_method", "PLAINTEXT"),
        ("oauth_timestamp", "0")], 0⟩ : SignedContent).signature =
      (⟨"cs&", "n", [("a", "1"), ("b", "2"), ("oauth_consumer_key", "ck"),
        ("oauth_nonce", "n"), ("oauth_signature_method", "PLAINTEXT"),
        ("oauth_timestamp", "0")], 0⟩ : SignedContent).signature := by
  exact claim_c3_sorted_and_permutation_invariant.2 noFileSystem 0 "f"
    "https://e" "POST" ("ck", "cs") Option.none SignatureMethod.plainText
    (some "n") OAuthVersion.none (some 0)
    [("b", OAuthParameter.stringValue "2"), ("a", OAuthParameter.stringValue "1")]
    [("a", OAuthParameter.stringValue "1"), ("b", OAuthParameter.stringValue "2")]
    _ _ (List.Perm.swap _ _ _) (by rfl) (by rfl)

/-- Claim C4: a `realm` parameter is carried into the returned payload but
skipped when the parameter string for the base string is built, so the
signature is the same with or without it. -/
theorem claim_c4_realm_excluded (fs : FileSystem) (now : Int)
    (fresh ep m : String) (cks : String × String)
    (tas : Option (String × String)) (sm : SignatureMethod)
    (non : Option String) (ver : OAuthVersion) (ts : Option Int)
    (l1 l2 : List (String × OAuthParameter)) (v : String)
    (c1 c2 : SignedContent)
    (h1 : sign_oauthv1 fs now fresh ep m cks tas sm non ver ts
      (l1 ++ ("realm", OAuthParameter.stringValue v) :: l2) = Except.ok c1)
    (h2 : sign_oauthv1 fs now fresh ep m cks tas sm non ver ts
      (l1 ++ l2) = Except.ok c2) :
    ("realm", percent_encode v) ∈ c1.payload ∧ c1.signature = c2.signature := by
  cases he1 : encodeUserParams fs (l1 ++ ("realm", OAuthParameter.stringValue v) :: l2) with
  | error e =>
    rw [sign_oauthv1_error_eq fs now fresh ep m cks tas sm non ver ts _ e he1] at h1
    cases h1
  | ok u1 =>
    cases he2 : encodeUserParams fs (l1 ++ l2) with
    | error e =>
      rw [sign_oauthv1_error_eq fs now fresh ep m cks tas sm non ver ts _ e he2] at h2
      cases h2
    | ok u2 =>
      rw [sign_oauthv1_ok_eq fs now fresh ep m cks tas sm non ver ts _ u1 he1] at h1
      rw [sign_oauthv1_ok_eq fs now fresh ep m cks tas sm non ver ts _ u2 he2] at h2
      obtain ⟨hu1, -⟩ := encodeUserParams_ok_elim fs _ u1 he1
      obtain ⟨hu2, -⟩ := encodeUserParams_ok_elim fs _ u2 he2
      subst hu1; subst hu2
      cases h1; cases h2
      have hrealm : encOk fs ("realm", OAuthParameter.stringValue v) =
        ("realm", percent_encode v) := rfl
      have hmap1 : (l1 ++ ("realm", OAuthParameter.stringValue v) :: l2).map (encOk fs) =
          l1.map (encOk fs) ++ ("realm", percent_encode v) :: l2.map (encOk fs) := by
        rw [List.map_append, List.map_cons, hrealm]
      constructor
      · apply ((List.perm_insertionSort pairLe _).mem_iff).mpr
        apply List.mem_append_right
        rw [hmap1]
        exact List.mem_append_right _ (List.mem_cons_self _ _)
      · have hfilter :
            ((build_basic_params cks.1 (tas.map Prod.fst) sm (non.getD fresh)
                (ts.getD now) ver.intoOption ++
              (l1 ++ ("realm", OAuthParameter.stringValue v) :: l2).map (encOk fs)).filter
              (fun kv => kv.1 != "realm")) =
            ((build_basic_params cks.1 (tas.map Prod.fst) sm (non.getD fresh)
                (ts.getD now) ver.intoOption ++
              (l1 ++ l2).map (encOk fs)).filter (fun kv => kv.1 != "realm")) := by
          rw [hmap1, List.map_append]
          simp only [List.filter_append, List.filter_cons]
          norm_num
        have hps : paramString (List.insertionSort pairLe
            (build_basic_params cks.1 (tas.map Prod.fst) sm (non.getD fresh)
              (ts.getD now) ver.intoOption ++
              (l1 ++ ("realm", OAuthParameter.stringValue v) :: l2).map (encOk fs))) =
          paramString (List.insertionSort pairLe
            (build_basic_params cks.1 (tas.map Prod.fst) sm (non.getD fresh)
              (ts.getD now) ver.intoOption ++ (l1 ++ l2).map (encOk fs))) := by
          unfold paramString
          rw [filter_insertionSort_eq_of_perm _ _ _ hfilter]
        cases sm with
        | plainText => rfl
        | hmacSha1 =>
          exact generate_signature_hmacsha1_congr cks.2 (tas.map Prod.snd) m ep
            _ _ hps

/-- Witness for C4: adding `realm=photos` leaves the PLAINTEXT-mode
signature unchanged while the pair appears in the payload. -/
theorem claim_c4_realm_excluded_witness :
    ("realm", percent_encode "photos") ∈
      (⟨"cs&", "n", [("oauth_consumer_key", "ck"), ("oauth_nonce", "n"),
          ("oauth_signature_method", "PLAINTEXT"), ("oauth_timestamp", "0"),
          ("p", "1"), ("realm", "photos")], 0⟩ : SignedContent).payload ∧
    (⟨"cs&", "n", [("oauth_consumer_key", "ck"), ("oauth_nonce", "n"),
        ("oauth_signature_method", "PLAINTEXT"), ("oauth_timestamp", "0"),
        ("p", "1"), ("realm", "photos")], 0⟩ : SignedContent).signature =
      (⟨"cs&", "n", [("oauth_consumer_key", "ck"), ("oauth_nonce", "n"),
        ("oauth_signature_method", "PLAINTEXT"), ("oauth_timestamp", "0"),
        ("p", "1")], 0⟩ : SignedContent).signature := by
  exact claim_c4_realm_excluded noFileSystem 0 "f" "https://e" "POST"
    ("ck", "cs") Option.none SignatureMethod.plainText (some "n")
    OAuthVersion.none (some 0) [] [("p", OAuthParameter.stringValue "1")]
    "photos" _ _ (by rfl) (by rfl)

/-- The characters of an appended string are the appended character
lists. -/
theorem str_data_append (a b : String) : (a ++ b).data = a.data ++ b.data := by
  cases a; cases b; rfl

/-- A successful `splitFirstEq` really is the split at the first `'='`:
the segment is the key, one `'='`, then the verbatim remainder, and the
key itself contains no `'='`. -/
theorem splitFirstEq_spec : ∀ (cs a b : List Char),
    splitFirstEq cs = some (a, b) → cs = a ++ '=' :: b ∧ '=' ∉ a := by
  intro cs
  induction cs with
  | nil => intro a b h; cases h
  | cons c rest ih =>
    intro a b h
    unfold splitFirstEq at h
    by_cases hc : c = '='
    · rw [if_pos hc] at h
      cases h
      subst hc
      exact ⟨rfl, List.not_mem_nil _⟩
    · rw [if_neg hc] at h
      cases hsr : splitFirstEq rest with
      | none => rw [hsr] at h; cases h
      | some pr =>
        rw [hsr] at h
        obtain ⟨hcs, hni⟩ := ih pr.1 pr.2 (by rw [hsr])
        injection h with h2
        cases h2
        constructor
        · rw [List.cons_append, ← hcs]
        · intro hmem
          rcases List.mem_cons.mp hmem with heq | hmem2
          · exact hc heq.symm
          · exact hni hmem2

/-- Splitting at a separator that does not occur in the first part peels
off exactly that part. -/
theorem charSplit_append_sep (sep : Char) (xs ys : List Char) (h : sep ∉ xs) :
    charSplit sep (xs ++ sep :: ys) = xs :: charSplit sep ys := by
  induction xs with
  | nil =>
    rw [List.nil_append]
    simp [charSplit]
  | cons x xt ih =>
    have hx : ¬(x = sep) := by
      intro hcontra
      exact h (by rw [hcontra]; exact List.mem_cons_self _ _)
    simp only [List.cons_append, charSplit, List.append_eq]
    rw [if_neg hx, ih (fun hm => h (List.mem_cons_of_mem _ hm))]

/-- Amended C10: query decomposition first strips leading `'?'`
characters, then follows the claim's recipe exactly: split on `'&'`, drop
empty segments, split each surviving segment at its first `'='` (dropping
segments without one) and keep everything after that `'='` verbatim; the
endpoint returned with it is the part of the URL before its query
string. -/
theorem claim_c10_amended :
    (∀ q : String, destructure_query q =
      claimQueryPairs ⟨q.data.dropWhile (fun c => c = '?')⟩) ∧
    (∀ q : String, ∀ p ∈ destructure_query q,
      ∃ s ∈ charSplit '&' (q.data.dropWhile (fun c => c = '?')),
        s ≠ [] ∧ s = p.1.data ++ '=' :: p.2.data ∧ '=' ∉ p.1.data) ∧
    (∀ e rest : String, '?' ∉ e.data →
      url_to_endpoint_and_queries ⟨e ++ "?" ++ rest, some rest⟩ =
        (e, destructure_query rest)) := by
  refine ⟨fun q => rfl, ?_, ?_⟩
  · intro q p hp
    unfold destructure_query at hp
    obtain ⟨s, hs, hmap⟩ := List.mem_filterMap.mp hp
    obtain ⟨hmem, hbool⟩ := List.mem_filter.mp hs
    cases hsp : splitFirstEq s with
    | none => rw [hsp] at hmap; cases hmap
    | some pr =>
      rw [hsp] at hmap
      injection hmap with hmap2
      obtain ⟨hcs, hni⟩ := splitFirstEq_spec s pr.1 pr.2 (by rw [hsp])
      cases hmap2
      refine ⟨s, hmem, ?_, hcs, hni⟩
      intro hnil
      rw [hnil] at hbool
      cases hbool
  · intro e rest h
    have hdata : ((e ++ "?" ++ rest) : String).data = e.data ++ '?' :: rest.data := by
      rw [str_data_append, str_data_append, List.append_assoc]
      rfl
    unfold url_to_endpoint_and_queries
    dsimp only
    rw [hdata, charSplit_append_sep '?' e.data rest.data h]
    exact Prod.ext (by cases e; rfl) rfl

/-- Witness for the amended C10: a URL with a one-pair query decomposes
into its endpoint and that pair. -/
theorem claim_c10_amended_witness :
    url_to_endpoint_and_queries ⟨"http://x" ++ "?" ++ "a=b", some "a=b"⟩ =
      ("http://x", destructure_query "a=b") :=
  claim_c10_amended.2.2 "http://x" "a=b" (by decide)

set_option maxRecDepth 100000 in
/-- Claim C1: on RFC 5849 test vector 1 — endpoint
`https://photos.example.net/initiate`, method POST, consumer key
`dpf43f3p2l4k3l03`, consumer secret `kd94hf93k423kf44`, nonce `wIjqoS`,
timestamp 137131200, version explicitly unset, HMAC-SHA1, user parameters
`realm=photos` and `oauth_callback=http://printer.example.com/ready`, no
token — `sign_oauthv1` succeeds and its signature field is exactly
`74KNZJeDHnMBp0EMJ9ZHt/XKycU=`. -/
theorem claim_c1_rfc5849_vector :
    (sign_oauthv1 noFileSystem 0 "unused-nonce"
      "https://photos.example.net/initiate" "POST"
      ("dpf43f3p2l4k3l03", "kd94hf93k423kf44") Option.none
      SignatureMethod.hmacSha1 (some "wIjqoS") OAuthVersion.none
      (some 137131200)
      [("realm", OAuthParameter.stringValue "photos"),
       ("oauth_callback",
        OAuthParameter.stringValue "http://printer.example.com/ready")]).map
      SignedContent.signature = Except.ok "74KNZJeDHnMBp0EMJ9ZHt/XKycU=" := by
  rfl

end OAuthSign
